import Mathlib

/-!
# Shallow embedding of the signal-finder pipeline

This file embeds the candidate-reduction pipeline of the `signal-finder-py`
repository in Lean and proves properties of it:

* `services/utils.py` — `dedupe_by_url`
* `services/rank.py` — `heuristic_intent_score`, `rank_posts_by_intent`
* `services/search.py` — the round-robin result mixer inside `SearchAllApis`
* `services/llm.py` — the response-parsing logic of `llmFilterPosts`
* `main.py` — the `/search` orchestration (`search`)

External I/O (HTTP fetches, the LLM call, `json.loads`, ISO-8601 timestamp
parsing) is modelled by explicit parameters: the mixer takes the three
per-source result lists, `search` takes the raw post list and the outcome of
the LLM filter call, timestamp parsing is a `String → Option Int` parameter
(epoch seconds, `none` for a parse failure), and the parsed JSON body of the
filter response is an explicit `Json` inductive (`none` models a
`json.JSONDecodeError`).  Python `float` scores are modelled by `ℚ`.
-/

open List (Sublist)

/-- A discovered post (`services/models.py`, `class Post`).  `url` is kept as a
plain string (the code applies `str(...)` to it wherever it is used as a key),
`ts` is the optional ISO-8601 timestamp string. -/
structure Post where
  source : String
  title : String
  url : String
  snippet : String
  ts : Option String
deriving DecidableEq, Repr

/-- A per-record judgment of the semantic filter
(`services/models.py`, `class JudgeItem`). -/
structure JudgeItem where
  url : String
  keep : Bool
  reason : String
deriving DecidableEq, Repr

/-- Python substring containment `needle in hay`. -/
def strContains (hay needle : String) : Bool :=
  decide (needle.toList <:+: hay.toList)

/-- Python `str.lower()` (character-wise lowercasing; stated on the
character list so that it is structurally recursive). -/
def pyLower (s : String) : String :=
  ⟨s.data.map Char.toLower⟩

/-- The identity key of a url: `str(url).split("?")[0]`, i.e. the url
truncated at the first `?` (query string dropped), used verbatim. -/
def urlKey (url : String) : String :=
  ⟨url.data.takeWhile (fun c => c ≠ '?')⟩

/-- Embedding of `services/utils.py`, `dedupe_by_url`: the loop, with the Python `seen`
set represented as the list of keys added so far. -/
def dedupeAux : List String → List Post → List Post
  | _, [] => []
  | seen, i :: rest =>
    let key := urlKey i.url
    if key ∈ seen then dedupeAux seen rest
    else i :: dedupeAux (key :: seen) rest

/-- Embedding of `services/utils.py`, `dedupe_by_url(items)`. -/
def dedupe_by_url (items : List Post) : List Post :=
  dedupeAux [] items

/-- The deduplicator as the spec describes it (§4.1): keep the first
occurrence of each distinct identity key, dropping every later record with an
equal key, preserving order.  Used to state the refinement theorem for C5. -/
def specDedupe : List Post → List Post
  | [] => []
  | p :: rest =>
    p :: specDedupe (rest.filter (fun q => urlKey q.url ≠ urlKey p.url))
termination_by l => l.length
decreasing_by
  simp only [List.length_cons]
  exact Nat.lt_succ_of_le (List.length_filter_le _ rest)

theorem dedupeAux_sublist (seen : List String) (items : List Post) :
    Sublist (dedupeAux seen items) items := by
  induction items generalizing seen with
  | nil => simp [dedupeAux]
  | cons p rest ih =>
    simp only [dedupeAux]
    split
    · exact (ih seen).cons p
    · exact (ih _).cons₂ p

theorem specDedupe_nil : specDedupe [] = [] := by
  rw [specDedupe]

theorem specDedupe_cons (p : Post) (rest : List Post) :
    specDedupe (p :: rest) =
      p :: specDedupe (rest.filter (fun q => urlKey q.url ≠ urlKey p.url)) := by
  rw [specDedupe]

theorem dedupeAux_eq_specDedupe (seen : List String) (items : List Post) :
    dedupeAux seen items =
      specDedupe (items.filter (fun q => decide (urlKey q.url ∉ seen))) := by
  induction items generalizing seen with
  | nil => simp [dedupeAux, specDedupe_nil]
  | cons p rest ih =>
    by_cases hmem : urlKey p.url ∈ seen
    · rw [show dedupeAux seen (p :: rest) = dedupeAux seen rest by
        simp [dedupeAux, hmem]]
      rw [ih seen]
      congr 1
      simp [List.filter_cons, hmem]
    · rw [show dedupeAux seen (p :: rest) =
          p :: dedupeAux (urlKey p.url :: seen) rest by simp [dedupeAux, hmem]]
      rw [show (p :: rest).filter (fun q => decide (urlKey q.url ∉ seen)) =
          p :: rest.filter (fun q => decide (urlKey q.url ∉ seen)) by
        simp [List.filter_cons, hmem]]
      rw [specDedupe_cons, ih (urlKey p.url :: seen), List.filter_filter]
      congr 2
      apply List.filter_congr
      intro q _
      by_cases h1 : urlKey q.url = urlKey p.url <;>
        by_cases h2 : urlKey q.url ∈ seen <;>
          simp [h1, h2, List.mem_cons]

/-- The function `specDedupe` returns a subsequence of its input. -/
theorem specDedupe_sublist (l : List Post) : Sublist (specDedupe l) l := by
  have h := dedupeAux_eq_specDedupe [] l
  simp at h
  rw [← h]
  exact dedupeAux_sublist [] l

theorem specDedupe_idem_aux :
    ∀ (n : Nat) (l : List Post), l.length ≤ n →
      specDedupe (specDedupe l) = specDedupe l := by
  intro n
  induction n with
  | zero =>
    intro l hl
    rw [List.length_eq_zero.mp (Nat.le_zero.mp hl)]
    simp [specDedupe_nil]
  | succ n ih =>
    intro l hl
    match l with
    | [] => simp [specDedupe_nil]
    | p :: rest =>
      rw [specDedupe_cons]
      rw [specDedupe_cons]
      have hlen : (rest.filter (fun q => urlKey q.url ≠ urlKey p.url)).length ≤ n := by
        have := List.length_filter_le (fun q => decide (urlKey q.url ≠ urlKey p.url)) rest
        simp only [List.length_cons, Nat.succ_le_succ_iff] at hl
        omega
      have hmem : ∀ q ∈ specDedupe (rest.filter (fun x => urlKey x.url ≠ urlKey p.url)),
          (decide (urlKey q.url ≠ urlKey p.url)) = true := by
        intro q hq
        have : q ∈ rest.filter (fun x => decide (urlKey x.url ≠ urlKey p.url)) :=
          (specDedupe_sublist _).subset hq
        exact (List.mem_filter.mp this).2
      rw [List.filter_eq_self.mpr hmem, ih _ hlen]

/-- The function `dedupe_by_url` computes exactly the spec's first-occurrence-per-key
deduplication. -/
theorem dedupe_by_url_eq_specDedupe (items : List Post) :
    dedupe_by_url items = specDedupe items := by
  have h := dedupeAux_eq_specDedupe [] items
  simp at h
  exact h

/-- C5: `dedupeByUrl` returns a subsequence of its input in which, for each
distinct identity key (the url truncated at the first `?`, used verbatim),
exactly the first-occurring record with that key survives: every later record
with an equal key is dropped and survivors keep their input order.  Stated as
the refinement `dedupe_by_url = specDedupe` (where `specDedupe` transcribes
the spec's description) together with the subsequence property. -/
theorem C5_dedupe_first_occurrence (items : List Post) :
    dedupe_by_url items = specDedupe items ∧ Sublist (dedupe_by_url items) items :=
  ⟨dedupe_by_url_eq_specDedupe items, dedupeAux_sublist [] items⟩

/-- C9: deduplication is idempotent. -/
theorem C9_dedupe_idempotent (items : List Post) :
    dedupe_by_url (dedupe_by_url items) = dedupe_by_url items := by
  rw [dedupe_by_url_eq_specDedupe, dedupe_by_url_eq_specDedupe]
  exact specDedupe_idem_aux items.length items le_rfl

/-! ## Heuristic intent ranker (`services/rank.py`) -/

/-- The fixed buying-intent phrase list of `heuristic_intent_score`. -/
def buying_signals : List String := [
  "our company", "our team", "we need", "looking for",
  "recommend", " vs ", "alternative", "switching from",
  "for our", "enterprise", "business", "comparing",
  "evaluation", "migrating", "replacing our"]

/-- Source-quality contribution: the first block of `heuristic_intent_score`
(`services/rank.py` lines 15-22). -/
def sourceQualityScore (post : Post) : ℚ :=
  let url_str := pyLower post.url
  if strContains url_str "reddit.com" then 1.5
  else if strContains url_str "linkedin.com" then 1.0
  else if strContains url_str "x.com" || strContains url_str "twitter.com" then 0.7
  else 0

/-- Recency contribution (`services/rank.py` lines 24-33).  `parseTs` models
`datetime.fromisoformat(ts.replace('Z', '+00:00'))` as epoch seconds, `none`
for any exception inside the `try` (which the code turns into `pass`); `now`
is `datetime.now(timezone.utc)` in epoch seconds.  `timedelta.days` floors,
hence `Int.fdiv`.  An empty `ts` string is falsy in Python and skips the
block. -/
def recencyScore (now : Int) (parseTs : String → Option Int) (post : Post) : ℚ :=
  match post.ts with
  | none => 0
  | some ts =>
    if ts = "" then 0
    else
      match parseTs ts with
      | none => 0
      | some postDate =>
        let days_old : Int := Int.fdiv (now - postDate) 86400
        if days_old < 180 then max 0 (2 * (1 - (days_old : ℚ) / 180)) else 0

/-- Buying-intent contribution (`services/rank.py` lines 46-57): a flat 0.5 if
any phrase occurs in `f"{title} {snippet}"` (the loop `break`s after the first
match, so at most one 0.5 is added — `List.any` is extensionally the same).
`title`/`snippet` are the already-lowercased fields. -/
def buyingSignalScore (title snippet : String) : ℚ :=
  if buying_signals.any (fun signal => strContains (title ++ " " ++ snippet) signal)
  then 0.5 else 0

/-- Embedding of `services/rank.py`, `heuristic_intent_score(post, query_terms)`. -/
def heuristic_intent_score (now : Int) (parseTs : String → Option Int)
    (post : Post) (query_terms : List String) : ℚ :=
  let score : ℚ := 0
  let score := score + sourceQualityScore post
  let score := score + recencyScore now parseTs post
  let title := pyLower post.title
  let snippet := pyLower post.snippet
  let score := query_terms.foldl (fun acc term =>
    let term_lower := pyLower term
    let acc := if strContains title term_lower then acc + 0.8 else acc
    if strContains snippet term_lower then acc + 0.4 else acc) score
  score + buyingSignalScore title snippet

/-- Splitting a character list at separator characters, keeping the (possibly
empty) chunks between them. -/
def splitChunks (p : Char → Bool) : List Char → List Char → List (List Char)
  | [], cur => [cur.reverse]
  | c :: cs, cur =>
    if p c then cur.reverse :: splitChunks p cs []
    else splitChunks p cs (c :: cur)

/-- Python `str.split()` with no argument: split on whitespace runs,
discarding empty pieces. -/
def pySplitWhitespace (s : String) : List String :=
  ((splitChunks (fun c => c.isWhitespace) s.data []).filter (· ≠ [])).map
    (fun l => ⟨l⟩)

/-- Query-term extraction of `rank_posts_by_intent` (`services/rank.py` lines
76-78): `q.lower().split()`; the per-query term lists are concatenated
without deduplication. -/
def extractQueryTerms (queries : List String) : List String :=
  queries.flatMap (fun q => pySplitWhitespace (pyLower q))

/-- Embedding of `services/rank.py`, `rank_posts_by_intent(posts, queries, top_n=60)`:
score every post, sort descending by score with a stable sort (Python
`list.sort(key=..., reverse=True)` is stable; `mergeSort` with
`b.1 ≤ a.1` is the same ordering), truncate to `top_n`, drop the scores. -/
def rank_posts_by_intent (now : Int) (parseTs : String → Option Int)
    (posts : List Post) (queries : List String) (top_n : Nat := 60) : List Post :=
  let query_terms := extractQueryTerms queries
  let scored_posts := posts.map
    (fun post => (heuristic_intent_score now parseTs post query_terms, post))
  let sorted := scored_posts.mergeSort (fun a b => decide (b.1 ≤ a.1))
  (sorted.take top_n).map (fun sp => sp.2)

/-- C7: `rankByIntent` returns exactly `min (number of records) topN`
records. -/
theorem C7_rank_length (now : Int) (parseTs : String → Option Int)
    (posts : List Post) (queries : List String) (n : Nat) :
    (rank_posts_by_intent now parseTs posts queries n).length =
      min posts.length n := by
  simp [rank_posts_by_intent, Nat.min_comm]

/-! ## Result mixer (`services/search.py`, tail of `SearchAllApis`) -/

/-- The mixing loop of `SearchAllApis` (`services/search.py` lines 57-66),
given the three fetched per-source lists (reddit, linkedin, x). -/
def SearchAllApisMix (rd li x : List Post) : List Post :=
  let max_len := max (max rd.length li.length) x.length
  (List.range max_len).foldl (fun acc i =>
    let acc := if h : i < rd.length then acc ++ [rd.get ⟨i, h⟩] else acc
    let acc := if h : i < li.length then acc ++ [li.get ⟨i, h⟩] else acc
    if h : i < x.length then acc ++ [x.get ⟨i, h⟩] else acc) []

/-- Round-robin interleaving as the spec describes it (§4.3): at each index
`i` up to the longest source, emit element `i` of reddit, linkedin, x in that
order, skipping exhausted sources. -/
def roundRobinMix (rd li x : List Post) : List Post :=
  (List.range (max (max rd.length li.length) x.length)).flatMap
    (fun i => (rd.drop i).take 1 ++ ((li.drop i).take 1 ++ (x.drop i).take 1))

theorem take_one_drop (l : List Post) (i : Nat) :
    (l.drop i).take 1 = if h : i < l.length then [l.get ⟨i, h⟩] else [] := by
  induction l generalizing i with
  | nil => simp
  | cons a tl ih =>
    cases i with
    | zero => simp
    | succ j =>
      simp only [List.drop_succ_cons, ih j, List.length_cons, List.get_cons_succ]
      by_cases h : j < tl.length <;> simp [h, Nat.succ_lt_succ_iff]

theorem foldl_append_flatMap {α β : Type} (g : α → List β) :
    ∀ (is : List α) (init : List β),
      is.foldl (fun acc i => acc ++ g i) init = init ++ is.flatMap g
  | [], init => by simp
  | i :: is, init => by
    simp [List.foldl_cons, foldl_append_flatMap g is]

/-- C6: the result mixer interleaves the three per-source sequences
round-robin — for each index `i` from 0 up to the longest source, it appends
element `i` of reddit, then linkedin, then x, skipping sources with no
element at `i`; in particular reddit `[r1,r2,r3]`, linkedin `[l1]`, x `[]`
yields `[r1,l1,r2,r3]`. -/
theorem C6_mixer_round_robin :
    (∀ rd li x : List Post, SearchAllApisMix rd li x = roundRobinMix rd li x) ∧
    (∀ r1 r2 r3 l1 : Post,
      SearchAllApisMix [r1, r2, r3] [l1] [] = [r1, l1, r2, r3]) := by
  constructor
  · intro rd li x
    unfold SearchAllApisMix roundRobinMix
    rw [show (fun (acc : List Post) (i : Nat) =>
        let acc := if h : i < rd.length then acc ++ [rd.get ⟨i, h⟩] else acc
        let acc := if h : i < li.length then acc ++ [li.get ⟨i, h⟩] else acc
        if h : i < x.length then acc ++ [x.get ⟨i, h⟩] else acc) =
        (fun acc i =>
          acc ++ ((rd.drop i).take 1 ++ ((li.drop i).take 1 ++ (x.drop i).take 1))) by
      funext acc i
      simp only [take_one_drop]
      by_cases h1 : i < rd.length <;> by_cases h2 : i < li.length <;>
        by_cases h3 : i < x.length <;> simp [h1, h2, h3]]
    rw [foldl_append_flatMap]
    simp
  · intro r1 r2 r3 l1
    rfl

/-! ## Term-overlap contribution (claim C4) -/

/-- Closed form of the term-matching loop of `heuristic_intent_score`
(`services/rank.py` lines 39-44): the loop adds 0.8 / 0.4 once per
*occurrence* of a matching term in `query_terms`. -/
theorem termLoop_eq (title snippet : String) (terms : List String) (base : ℚ) :
    terms.foldl (fun acc term =>
      let term_lower := pyLower term
      let acc := if strContains title term_lower then acc + 0.8 else acc
      if strContains snippet term_lower then acc + 0.4 else acc) base
    = base + 0.8 * (terms.countP (fun t => strContains title (pyLower t)) : ℚ)
        + 0.4 * (terms.countP (fun t => strContains snippet (pyLower t)) : ℚ) := by
  induction terms generalizing base with
  | nil => simp
  | cons t ts ih =>
    simp only [List.foldl_cons, List.countP_cons, ih]
    by_cases h1 : strContains title (pyLower t) <;>
      by_cases h2 : strContains snippet (pyLower t) <;>
        simp only [h1, h2, if_true, if_false, reduceIte] <;> push_cast <;> ring

/-- The term-overlap contribution the code actually computes: 0.8 per
occurrence of a term (with multiplicity in `query_terms`) matching the
lowercased title, plus 0.4 per occurrence matching the lowercased
snippet. -/
def termOverlapScore (title snippet : String) (terms : List String) : ℚ :=
  0.8 * (terms.countP (fun t => strContains title (pyLower t)) : ℚ)
  + 0.4 * (terms.countP (fun t => strContains snippet (pyLower t)) : ℚ)

/-- The term-overlap contribution as claim C4 describes it: 0.8 / 0.4 per
*distinct* term, a repeated term counted only once per field. -/
def claimedTermOverlapScore (title snippet : String) (terms : List String) : ℚ :=
  0.8 * (((terms.map pyLower).dedup).countP (fun t => strContains title t) : ℚ)
  + 0.4 * (((terms.map pyLower).dedup).countP (fun t => strContains snippet t) : ℚ)

/-- C4 counterexample: for the post with title `"buy"`, empty snippet, url
`"http://a.co"` (no source-quality, recency or buying-intent contribution)
and the query-term list `["buy", "buy"]` (the same term repeated), the code
scores 1.6 — the repeated term adds its 0.8 title bonus twice — while the
claim's once-per-distinct-term reading predicts a total of 0.8. -/
theorem C4_counterexample :
    heuristic_intent_score 0 (fun _ => none)
        ⟨"reddit", "buy", "http://a.co", "", none⟩ ["buy", "buy"] = 8/5 ∧
    sourceQualityScore ⟨"reddit", "buy", "http://a.co", "", none⟩
        + recencyScore 0 (fun _ => none) ⟨"reddit", "buy", "http://a.co", "", none⟩
        + claimedTermOverlapScore (pyLower "buy") (pyLower "") ["buy", "buy"]
        + buyingSignalScore (pyLower "buy") (pyLower "") = 4/5 ∧
    (8/5 : ℚ) ≠ 4/5 := by
  refine ⟨?_, ?_, by norm_num⟩
  · simp only [heuristic_intent_score]
    rw [termLoop_eq]
    rw [show sourceQualityScore ⟨"reddit", "buy", "http://a.co", "", none⟩ = 0 by
      simp only [sourceQualityScore]
      norm_num [show strContains (pyLower "http://a.co") "reddit.com" = false by decide,
        show strContains (pyLower "http://a.co") "linkedin.com" = false by decide,
        show strContains (pyLower "http://a.co") "x.com" = false by decide,
        show strContains (pyLower "http://a.co") "twitter.com" = false by decide]]
    rw [show recencyScore 0 (fun _ => none) ⟨"reddit", "buy", "http://a.co", "", none⟩ = 0
      from rfl]
    rw [show (["buy", "buy"].countP
        (fun t => strContains (pyLower (Post.title ⟨"reddit", "buy", "http://a.co", "", none⟩)) (pyLower t))) = 2 by decide]
    rw [show (["buy", "buy"].countP
        (fun t => strContains (pyLower (Post.snippet ⟨"reddit", "buy", "http://a.co", "", none⟩)) (pyLower t))) = 0 by decide]
    rw [show buyingSignalScore (pyLower "buy") (pyLower "") = 0 by
      simp only [buyingSignalScore]
      rw [show buying_signals.any
          (fun signal => strContains (pyLower "buy" ++ " " ++ pyLower "") signal) = false by decide]
      simp]
    norm_num
  · rw [show sourceQualityScore ⟨"reddit", "buy", "http://a.co", "", none⟩ = 0 by
      simp only [sourceQualityScore]
      norm_num [show strContains (pyLower "http://a.co") "reddit.com" = false by decide,
        show strContains (pyLower "http://a.co") "linkedin.com" = false by decide,
        show strContains (pyLower "http://a.co") "x.com" = false by decide,
        show strContains (pyLower "http://a.co") "twitter.com" = false by decide]]
    rw [show recencyScore 0 (fun _ => none) ⟨"reddit", "buy", "http://a.co", "", none⟩ = 0
      from rfl]
    rw [show buyingSignalScore (pyLower "buy") (pyLower "") = 0 by
      simp only [buyingSignalScore]
      rw [show buying_signals.any
          (fun signal => strContains (pyLower "buy" ++ " " ++ pyLower "") signal) = false by decide]
      simp]
    rw [show claimedTermOverlapScore (pyLower "buy") (pyLower "") ["buy", "buy"] = 4/5 by
      simp only [claimedTermOverlapScore]
      rw [show ((["buy", "buy"].map pyLower).dedup.countP
          (fun t => strContains (pyLower "buy") t)) = 1 by decide]
      rw [show ((["buy", "buy"].map pyLower).dedup.countP
          (fun t => strContains (pyLower "") t)) = 0 by decide]
      norm_num]
    norm_num

/-- C4 amended: in `score(record, queryTerms)` the term-overlap contribution
is 0.8 per *occurrence* of a term in `queryTerms` (with multiplicity) that is
a substring of the lowercased title, plus 0.4 per occurrence that is a
substring of the lowercased snippet: a term repeated in `queryTerms` adds its
bonus once per repetition, not once per distinct term. -/
theorem C4_amended (now : Int) (parseTs : String → Option Int)
    (post : Post) (query_terms : List String) :
    heuristic_intent_score now parseTs post query_terms =
      sourceQualityScore post + recencyScore now parseTs post
        + termOverlapScore (pyLower post.title) (pyLower post.snippet) query_terms
        + buyingSignalScore (pyLower post.title) (pyLower post.snippet) := by
  simp only [heuristic_intent_score, termOverlapScore]
  rw [termLoop_eq]
  ring

/-! ## Stability and sortedness of the ranker (claim C8) -/

/-- The intent score of a post under a query list, as `rank_posts_by_intent`
computes it (query terms extracted from `queries`). -/
def intentScore (now : Int) (parseTs : String → Option Int)
    (queries : List String) (post : Post) : ℚ :=
  heuristic_intent_score now parseTs post (extractQueryTerms queries)

/-- C8: `rankByIntent` sorts descending by score with a stable sort.  The
second conjunct states the descending order; the first states stability: for
every score value `s`, the records of the output with score `s` form a
subsequence of the records of the input with score `s`, so any two records
with equal scores keep their input relative order.  Determinism is immediate
since `rank_posts_by_intent` is a pure function of `(now, parseTs, posts,
queries, top_n)`. -/
theorem C8_rank_stable_sorted (now : Int) (parseTs : String → Option Int)
    (posts : List Post) (queries : List String) (n : Nat) (s : ℚ) :
    Sublist ((rank_posts_by_intent now parseTs posts queries n).filter
        (fun p => decide (intentScore now parseTs queries p = s)))
      (posts.filter (fun p => decide (intentScore now parseTs queries p = s)))
    ∧ (rank_posts_by_intent now parseTs posts queries n).Pairwise
        (fun p q => intentScore now parseTs queries q ≤ intentScore now parseTs queries p) := by
  classical
  set sc : Post → ℚ := fun p => heuristic_intent_score now parseTs p (extractQueryTerms queries)
    with hsc
  set f : Post → ℚ × Post := fun post => (sc post, post) with hf
  set scored : List (ℚ × Post) := posts.map f with hscored
  set le : ℚ × Post → ℚ × Post → Bool := fun a b => decide (b.1 ≤ a.1) with hle
  have trans : ∀ a b c, le a b → le b c → le a c := by
    intro a b c hab hbc
    simp only [hle, decide_eq_true_eq] at hab hbc ⊢
    exact le_trans hbc hab
  have total : ∀ a b, le a b || le b a := by
    intro a b
    simp only [hle, Bool.or_eq_true, decide_eq_true_eq]
    exact le_total b.1 a.1
  have hfst : ∀ a ∈ scored, a.1 = sc a.2 := by
    intro a ha
    simp only [hscored, List.mem_map] at ha
    obtain ⟨p, _, rfl⟩ := ha
    rfl
  have hrank : rank_posts_by_intent now parseTs posts queries n
      = ((scored.mergeSort le).take n).map (fun sp => sp.2) := rfl
  have hmem_take : ∀ a ∈ (scored.mergeSort le).take n, a.1 = sc a.2 := by
    intro a ha
    exact hfst a (List.mem_mergeSort.mp ((List.take_sublist n _).subset ha))
  constructor
  · -- stability
    set q : ℚ × Post → Bool := fun a => decide (a.1 = s) with hq
    set pr : Post → Bool := fun p => decide (intentScore now parseTs queries p = s) with hpr
    have hprsc : ∀ p, pr p = decide (sc p = s) := by
      intro p
      simp only [hpr, hsc, intentScore]
    have hqpair : (scored.filter q).Pairwise (fun a b => le a b = true) := by
      apply List.pairwise_of_forall_mem_list
      intro a ha b hb
      have ha' := (List.mem_filter.mp ha).2
      have hb' := (List.mem_filter.mp hb).2
      simp only [hq, decide_eq_true_eq] at ha' hb'
      simp only [hle, decide_eq_true_eq, ha', hb']
      exact le_refl s
    have h4 : Sublist (scored.filter q) (scored.mergeSort le) :=
      List.sublist_mergeSort trans total hqpair (List.filter_sublist scored)
    have h6 : Sublist (scored.filter q) ((scored.mergeSort le).filter q) := by
      have h := h4.filter q
      rwa [List.filter_filter,
        show (fun a => q a && q a) = q by funext a; cases q a <;> simp] at h
    have h5 : ((scored.mergeSort le).filter q).Perm (scored.filter q) :=
      (List.mergeSort_perm scored le).filter q
    have h7 : (scored.mergeSort le).filter q = scored.filter q :=
      (List.Sublist.eq_of_length h6 h5.length_eq.symm).symm
    have h8 : Sublist (((scored.mergeSort le).take n).filter q) (scored.filter q) := by
      rw [← h7]
      exact (List.take_sublist n _).filter q
    have hL : (rank_posts_by_intent now parseTs posts queries n).filter pr
        = (((scored.mergeSort le).take n).filter q).map (fun sp => sp.2) := by
      rw [hrank, List.filter_map]
      congr 1
      apply List.filter_congr
      intro a ha
      simp only [Function.comp, hprsc, hq]
      rw [hmem_take a ha]
    have hR : posts.filter pr = (scored.filter q).map (fun sp => sp.2) := by
      have hp : scored.map (fun sp => sp.2) = posts := by
        simp only [hscored, List.map_map]
        exact List.map_id posts
      rw [← hp, List.filter_map]
      congr 1
      apply List.filter_congr
      intro a ha
      simp only [Function.comp, hprsc, hq]
      rw [hfst a ha]
    rw [hL, hR]
    exact h8.map _
  · -- descending order
    have hsorted : ((scored.mergeSort le).take n).Pairwise (fun a b => le a b = true) :=
      List.Pairwise.sublist (List.take_sublist n _) (List.sorted_mergeSort trans total scored)
    have hpair : ((scored.mergeSort le).take n).Pairwise
        (fun a b => sc b.2 ≤ sc a.2) := by
      refine hsorted.imp_of_mem ?_
      intro a b ha hb hab
      simp only [hle, decide_eq_true_eq] at hab
      rw [← hmem_take a ha, ← hmem_take b hb]
      exact hab
    rw [hrank]
    exact (List.pairwise_map).mpr hpair

/-! ## Semantic filter response parsing (`services/llm.py`, `llmFilterPosts`)
and the `/search` orchestration (`main.py`, `search`) -/

/-- A parsed JSON value, modelling the result of `json.loads` on the LLM
response text (`obj` is a Python dict with string keys). -/
inductive Json where
  | null : Json
  | bool : Bool → Json
  | num : Int → Json
  | str : String → Json
  | arr : List Json → Json
  | obj : List (String × Json) → Json

/-- One `{"title", "snippet", "url"}` item passed to `llmFilterPosts`
(`main.py` line 122). -/
structure FilterItem where
  title : String
  snippet : String
  url : String
deriving DecidableEq, Repr

/-- Pydantic lax validation of a `bool` field from a JSON value: a JSON
boolean; the integers 0/1; or a string equal, case-insensitively, to one of
`'true','t','yes','y','on','1'` (True) or `'false','f','no','n','off','0'`
(False).  Any other value fails validation.  (Floats do not occur in this
`Json` model; pydantic would likewise coerce 0.0/1.0.) -/
def pydanticBool : Json → Option Bool
  | .bool b => some b
  | .num n => if n = 0 then some false else if n = 1 then some true else none
  | .str s =>
    match pyLower s with
    | "true" | "t" | "yes" | "y" | "on" | "1" => some true
    | "false" | "f" | "no" | "n" | "off" | "0" => some false
    | _ => none
  | _ => none

/-- Pydantic `JudgeItem(**d)` for a JSON value `d`: validation succeeds only
on an object with a string `url`, a `keep` value accepted by pydantic's lax
bool validation (`pydanticBool`) and a string `reason` (extra keys ignored);
anything else raises a `ValidationError`/`TypeError` (`none`). -/
def mkJudgeItem : Json → Option JudgeItem
  | .obj fields =>
    match fields.lookup "url", (fields.lookup "keep").bind pydanticBool,
        fields.lookup "reason" with
    | some (.str u), some k, some (.str r) => some ⟨u, k, r⟩
    | _, _, _ => none
  | _ => none

/-- The comprehension `[JudgeItem(**d) for d in v]` over a wrapped
`results`/`items` value `v`: a list is validated elementwise; iterating an
*empty* dict or *empty* string yields no elements, so the comprehension
returns `[]` without raising; iterating a non-empty dict yields string keys
and a non-empty string yields characters, on which `JudgeItem(**d)` raises a
`TypeError`; numbers, booleans and `None` are not iterable and raise
immediately.  `none` means the comprehension raises, which the caller's
`except` turns into the keep-all fallback. -/
def parseJudgeArray : Json → Option (List JudgeItem)
  | .arr l => l.mapM mkJudgeItem
  | .obj [] => some []
  | .obj (_ :: _) => none
  | .str s => if s = "" then some [] else none
  | _ => none

/-- The keep-all fallback of `llmFilterPosts` (`services/llm.py` line 187). -/
def keepAllJudgments (items : List FilterItem) : List JudgeItem :=
  items.map (fun item => ⟨item.url, true, "Filter failed, keeping all"⟩)

/-- The `try` body of `llmFilterPosts` on a successfully decoded JSON value
(`services/llm.py` lines 168-183), with any exception inside the `try`
(a `ValidationError`/`TypeError` while building judgments) landing in the
keep-all fallback: a bare array is parsed elementwise; an object is examined
for `results`, then `items`, then treated as a single judgment when it has
`url` and `keep` keys, and otherwise yields `[]`; any other value yields
`[]`. -/
def parseFilterResponse (data : Json) (items : List FilterItem) : List JudgeItem :=
  match data with
  | .arr l => (l.mapM mkJudgeItem).getD (keepAllJudgments items)
  | .obj fields =>
    match fields.lookup "results" with
    | some v => (parseJudgeArray v).getD (keepAllJudgments items)
    | none =>
      match fields.lookup "items" with
      | some v => (parseJudgeArray v).getD (keepAllJudgments items)
      | none =>
        if (fields.lookup "url").isSome && (fields.lookup "keep").isSome then
          match mkJudgeItem (.obj fields) with
          | some j => [j]
          | none => keepAllJudgments items
        else []
  | _ => []

/-- The judgments `llmFilterPosts` returns for a given decode outcome:
`none` models `json.loads` raising (`JSONDecodeError` → keep-all). -/
def judgedOf (items : List FilterItem) (parsed : Option Json) : List JudgeItem :=
  match parsed with
  | none => keepAllJudgments items
  | some data => parseFilterResponse data items

/-- Embedding of `services/llm.py`, `llmFilterPosts(topic, items, http)`: the `_responses`
HTTP call sits *outside* the `try`, so `response = .error e` (the call
raising) propagates; otherwise the decoded body is parsed with the keep-all
fallback.  The `topic` argument only shapes the prompt of the external call
and is therefore absorbed into the `response` parameter. -/
def llmFilterPosts (items : List FilterItem)
    (response : Except String (Option Json)) : Except String (List JudgeItem) :=
  match response with
  | .error e => .error e
  | .ok parsed => .ok (judgedOf items parsed)

/-- The `{"title": p.title, "snippet": p.snippet, "url": p.url}` items built
in `main.py` line 122. -/
def mkFilterItems (posts : List Post) : List FilterItem :=
  posts.map (fun p => ⟨p.title, p.snippet, p.url⟩)

/-- The set `keep = {j.url for j in judged if j.keep}` (`main.py` line 125), as the
list of urls of kept judgments (emptiness and membership agree with the
Python set). -/
def keptUrls (judged : List JudgeItem) : List String :=
  (judged.filter (fun j => j.keep)).map (fun j => j.url)

/-- Embedding of `main.py`, the `/search` handler after the external fetch: `posts` is
what `SearchAllApis` returned and `response` the outcome of the
`llmFilterPosts` call (an `.error` models the LLM call raising, which the
handler's `except` turns into an HTTP 500). -/
def search (now : Int) (parseTs : String → Option Int) (queries : List String)
    (posts : List Post) (response : Except String (Option Json)) :
    Except String (List Post) :=
  let unique := dedupe_by_url posts
  if unique.isEmpty then .ok []
  else
    let top_candidates := rank_posts_by_intent now parseTs unique queries 60
    match llmFilterPosts (mkFilterItems top_candidates) response with
    | .error e => .error e
    | .ok judged =>
      let keep := keptUrls judged
      if keep.isEmpty then .ok (top_candidates.take 3)
      else .ok ((top_candidates.filter (fun p => keep.contains p.url)).take 15)

theorem rank_nil (now : Int) (parseTs : String → Option Int)
    (queries : List String) (n : Nat) :
    rank_posts_by_intent now parseTs [] queries n = [] := by
  simp [rank_posts_by_intent]

theorem rank_singleton (now : Int) (parseTs : String → Option Int)
    (p : Post) (queries : List String) :
    rank_posts_by_intent now parseTs [p] queries 60 = [p] := by
  simp [rank_posts_by_intent]

theorem keptUrls_keepAll (items : List FilterItem) :
    keptUrls (keepAllJudgments items) = items.map (fun it => it.url) := by
  simp only [keptUrls, keepAllJudgments, List.filter_map]
  rw [show ((fun (j : JudgeItem) => j.keep) ∘ fun (item : FilterItem) =>
      (⟨item.url, true, "Filter failed, keeping all"⟩ : JudgeItem)) = fun _ => true by
    funext item; rfl]
  simp [List.map_map]

theorem rank_length_eq (now : Int) (parseTs : String → Option Int)
    (posts : List Post) (queries : List String) (n : Nat) :
    (rank_posts_by_intent now parseTs posts queries n).length = min posts.length n := by
  simp [rank_posts_by_intent, Nat.min_comm]

theorem rank_ne_nil (now : Int) (parseTs : String → Option Int)
    (posts : List Post) (queries : List String) (hne : posts ≠ []) :
    rank_posts_by_intent now parseTs posts queries 60 ≠ [] := by
  intro h
  have hlen := rank_length_eq now parseTs posts queries 60
  rw [h] at hlen
  simp only [List.length_nil] at hlen
  have : posts.length = 0 := by omega
  exact hne (List.length_eq_zero.mp this)

/-- C2 counterexample: with one raw post and the semantic-filter call
raising (the `_responses` HTTP call sits outside `llmFilterPosts`'s `try`),
the `/search` handler returns the error (an HTTP 500) rather than the first
15 ranked records, and the failure *is* surfaced to the caller. -/
theorem C2_counterexample :
    search 0 (fun _ => none) ["q"]
        [⟨"reddit", "t", "http://a.co/x", "s", none⟩] (.error "boom")
      = .error "boom" ∧
    ∀ l : List Post,
      search 0 (fun _ => none) ["q"]
          [⟨"reddit", "t", "http://a.co/x", "s", none⟩] (.error "boom") ≠ .ok l := by
  have hc : search 0 (fun _ => none) ["q"]
      [⟨"reddit", "t", "http://a.co/x", "s", none⟩] (.error "boom")
      = .error "boom" := by
    simp [search, dedupe_by_url, dedupeAux, llmFilterPosts]
  exact ⟨hc, fun l h => Except.noConfusion (hc.symm.trans h)⟩

/-- C2 amended: when the semantic filter's *response fails to parse*
(`json.loads` raising, modelled by a decoded body of `none`), the outcome
equals treating every candidate as kept — the first 15 records of the ranked
top 60 (or all of them when fewer exist), in ranked order, with no failure
surfaced.  (A filter *call* that raises instead propagates out of the
handler, per the C2 counterexample.) -/
theorem C2_amended (now : Int) (parseTs : String → Option Int)
    (queries : List String) (posts : List Post) :
    search now parseTs queries posts (.ok none)
      = .ok ((rank_posts_by_intent now parseTs
          (dedupe_by_url posts) queries 60).take 15) := by
  by_cases hemp : (dedupe_by_url posts).isEmpty
  · rw [show search now parseTs queries posts (.ok none) = .ok [] by
      simp only [search]
      rw [if_pos hemp]]
    rw [List.isEmpty_iff.mp hemp, rank_nil]
    simp
  · simp only [search, llmFilterPosts, judgedOf]
    rw [if_neg hemp]
    rw [keptUrls_keepAll]
    set tc := rank_posts_by_intent now parseTs (dedupe_by_url posts) queries 60 with htc
    have hkeep : (mkFilterItems tc).map (fun it => it.url) = tc.map (fun p => p.url) := by
      simp only [mkFilterItems, List.map_map]
      rfl
    rw [hkeep]
    have htc_ne : tc ≠ [] := by
      rw [htc]
      exact rank_ne_nil now parseTs _ queries
        (fun h => (List.isEmpty_iff.mpr h ▸ hemp) rfl)
    rw [if_neg (by simp [htc_ne])]
    congr 1
    congr 1
    apply List.filter_eq_self.mpr
    intro p hp
    rw [List.contains_eq_any_beq]
    apply List.any_eq_true.mpr
    exact ⟨p.url, List.mem_map_of_mem _ hp, by simp⟩

/-- C1 counterexample: one candidate whose url is `"http://a.co/x?foo=1"`,
and a filter response holding a single `keep=true` judgment whose url
`"http://a.co/x?bar=2"` matches no candidate verbatim.  Zero ranked records
are matched by the kept judgments, yet — because the code tests emptiness of
the judgment-url set *before* matching back to candidates — the handler
returns the empty list, not the top-3 fallback `[record]`, so a caller can
receive an empty result although a candidate exists. -/
theorem C1_counterexample :
    search 0 (fun _ => none) ["q"]
        [⟨"reddit", "t", "http://a.co/x?foo=1", "s", none⟩]
        (.ok (some (.arr [.obj [("url", .str "http://a.co/x?bar=2"),
          ("keep", .bool true), ("reason", .str "r")]])))
      = .ok [] ∧
    dedupe_by_url [⟨"reddit", "t", "http://a.co/x?foo=1", "s", none⟩] ≠ [] ∧
    (rank_posts_by_intent 0 (fun _ => none)
        (dedupe_by_url [⟨"reddit", "t", "http://a.co/x?foo=1", "s", none⟩]) ["q"] 60).take 3
      = [⟨"reddit", "t", "http://a.co/x?foo=1", "s", none⟩] := by
  have hded : dedupe_by_url [(⟨"reddit", "t", "http://a.co/x?foo=1", "s", none⟩ : Post)]
      = [⟨"reddit", "t", "http://a.co/x?foo=1", "s", none⟩] := by
    simp [dedupe_by_url, dedupeAux]
  have hrank := rank_singleton 0 (fun _ => none)
      (⟨"reddit", "t", "http://a.co/x?foo=1", "s", none⟩ : Post) ["q"]
  refine ⟨?_, by simp [hded], by rw [hded, hrank]; rfl⟩
  simp only [search, hded, hrank, llmFilterPosts, judgedOf]
  rfl

/-- C1 amended: if the semantic filter yields *no keep=true judgment at all*
(the code's `len(keep) == 0` test, applied to the judgment-url set before any
matching with candidates), the result is the first 3 records of the
heuristic ranking, in ranked order — and it is nonempty whenever a candidate
exists.  (When keep=true judgments exist but none matches a candidate url
verbatim the result is empty, per the C1 counterexample; and a filter call
that raises surfaces an error instead.) -/
theorem C1_amended (now : Int) (parseTs : String → Option Int)
    (queries : List String) (posts : List Post) (parsed : Option Json) :
    (keptUrls (judgedOf (mkFilterItems (rank_posts_by_intent now parseTs
          (dedupe_by_url posts) queries 60)) parsed) = [] →
      search now parseTs queries posts (.ok parsed)
        = .ok ((rank_posts_by_intent now parseTs
            (dedupe_by_url posts) queries 60).take 3)) ∧
    (dedupe_by_url posts ≠ [] →
      (rank_posts_by_intent now parseTs (dedupe_by_url posts) queries 60).take 3 ≠ []) := by
  constructor
  · intro hkeep
    by_cases hemp : (dedupe_by_url posts).isEmpty
    · rw [show search now parseTs queries posts (.ok parsed) = .ok [] by
        simp only [search]; rw [if_pos hemp]]
      rw [List.isEmpty_iff.mp hemp, rank_nil]
      simp
    · simp only [search, llmFilterPosts]
      rw [if_neg hemp, hkeep]
      simp
  · intro hne hcon
    have hlen := rank_length_eq now parseTs (dedupe_by_url posts) queries 60
    rcases List.take_eq_nil_iff.mp hcon with h3 | hnil
    · exact absurd h3 (by norm_num)
    · rw [hnil] at hlen
      simp only [List.length_nil] at hlen
      have hz : (dedupe_by_url posts).length = 0 := by omega
      exact hne (List.length_eq_zero.mp hz)

/-- Witness for `C1_amended`: one candidate and a filter response decoding to
the empty JSON array (zero judgments, hence zero keep=true judgments). -/
theorem C1_amended_witness :
    search 0 (fun _ => none) ["q"] [⟨"reddit", "t", "http://a.co/x", "s", none⟩]
        (.ok (some (.arr [])))
      = .ok ((rank_posts_by_intent 0 (fun _ => none)
          (dedupe_by_url [⟨"reddit", "t", "http://a.co/x", "s", none⟩]) ["q"] 60).take 3) ∧
    (rank_posts_by_intent 0 (fun _ => none)
        (dedupe_by_url [⟨"reddit", "t", "http://a.co/x", "s", none⟩]) ["q"] 60).take 3 ≠ [] :=
  ⟨(C1_amended 0 (fun _ => none) ["q"]
        [⟨"reddit", "t", "http://a.co/x", "s", none⟩] (some (.arr []))).1 rfl,
   (C1_amended 0 (fun _ => none) ["q"]
        [⟨"reddit", "t", "http://a.co/x", "s", none⟩] (some (.arr []))).2
      (by simp [dedupe_by_url, dedupeAux])⟩

/-- C3 counterexample: the ranked record's url `"http://b.co/y?a=1"` and the
returned keep=true judgment's url `"http://b.co/y?b=2"` have the same
identity key (query string stripped), so under the claim the record counts
as kept and the result would be the nonempty kept list; but `search` matches
by the verbatim url string (`p.url in keep`, no stripping), the record is
not matched, and the result is empty. -/
theorem C3_counterexample :
    urlKey "http://b.co/y?a=1" = urlKey "http://b.co/y?b=2" ∧
    search 0 (fun _ => none) ["q"]
        [⟨"reddit", "t", "http://b.co/y?a=1", "s", none⟩]
        (.ok (some (.arr [.obj [("url", .str "http://b.co/y?b=2"),
          ("keep", .bool true), ("reason", .str "r")]])))
      = .ok [] ∧
    (Except.ok ([] : List Post) : Except String (List Post))
      ≠ .ok [⟨"reddit", "t", "http://b.co/y?a=1", "s", none⟩] := by
  have hded : dedupe_by_url [(⟨"reddit", "t", "http://b.co/y?a=1", "s", none⟩ : Post)]
      = [⟨"reddit", "t", "http://b.co/y?a=1", "s", none⟩] := by
    simp [dedupe_by_url, dedupeAux]
  have hrank := rank_singleton 0 (fun _ => none)
      (⟨"reddit", "t", "http://b.co/y?a=1", "s", none⟩ : Post) ["q"]
  refine ⟨by decide, ?_, by intro h; simp at h⟩
  simp only [search, hded, hrank, llmFilterPosts, judgedOf]
  rfl

/-- C3 amended: `JudgmentResults` are matched back to ranked records by the
*verbatim url string* — `keep` is the set of urls of keep=true judgments and
a ranked record survives exactly when its `url` field is literally in that
set; urls differing only in their query-string suffix do *not* match.  When
at least one keep=true judgment exists the result is the matching records,
in ranked order, truncated to 15. -/
theorem C3_amended (now : Int) (parseTs : String → Option Int)
    (queries : List String) (posts : List Post) (parsed : Option Json) :
    keptUrls (judgedOf (mkFilterItems (rank_posts_by_intent now parseTs
        (dedupe_by_url posts) queries 60)) parsed) ≠ [] →
    search now parseTs queries posts (.ok parsed)
      = .ok (((rank_posts_by_intent now parseTs (dedupe_by_url posts) queries 60).filter
          (fun p => (keptUrls (judgedOf (mkFilterItems (rank_posts_by_intent now parseTs
              (dedupe_by_url posts) queries 60)) parsed)).contains p.url)).take 15) := by
  intro hkeep
  by_cases hemp : (dedupe_by_url posts).isEmpty
  · rw [show search now parseTs queries posts (.ok parsed) = .ok [] by
      simp only [search]; rw [if_pos hemp]]
    rw [List.isEmpty_iff.mp hemp, rank_nil]
    simp
  · simp only [search, llmFilterPosts]
    rw [if_neg hemp, if_neg (by simpa using hkeep)]

/-- Witness for `C3_amended`: one candidate with a matching keep=true
judgment; the result is that candidate. -/
theorem C3_amended_witness :
    search 0 (fun _ => none) ["q"] [⟨"reddit", "t", "http://b.co/y", "s", none⟩]
        (.ok (some (.arr [.obj [("url", .str "http://b.co/y"),
          ("keep", .bool true), ("reason", .str "r")]])))
      = .ok (((rank_posts_by_intent 0 (fun _ => none)
          (dedupe_by_url [⟨"reddit", "t", "http://b.co/y", "s", none⟩]) ["q"] 60).filter
            (fun p => (keptUrls (judgedOf (mkFilterItems (rank_posts_by_intent 0 (fun _ => none)
              (dedupe_by_url [⟨"reddit", "t", "http://b.co/y", "s", none⟩]) ["q"] 60))
              (some (.arr [.obj [("url", .str "http://b.co/y"),
                ("keep", .bool true), ("reason", .str "r")]])))).contains p.url)).take 15) :=
  C3_amended 0 (fun _ => none) ["q"] [⟨"reddit", "t", "http://b.co/y", "s", none⟩]
    (some (.arr [.obj [("url", .str "http://b.co/y"),
      ("keep", .bool true), ("reason", .str "r")]]))
    (by
      rw [show dedupe_by_url [(⟨"reddit", "t", "http://b.co/y", "s", none⟩ : Post)]
          = [⟨"reddit", "t", "http://b.co/y", "s", none⟩] by simp [dedupe_by_url, dedupeAux]]
      rw [rank_singleton]
      decide)

/-- C10 (implicit): in the final assembly, a ranked record for which the
filter returned no judgment is treated exactly like one judged keep=false —
whenever at least one returned judgment has keep=true, every record of the
returned result has its url in the kept-judgment url set, i.e. any ranked
record whose url is absent from that set is excluded. -/
theorem C10_unjudged_excluded (now : Int) (parseTs : String → Option Int)
    (queries : List String) (posts : List Post) (parsed : Option Json)
    (p : Post) (result : List Post)
    (hany : ((judgedOf (mkFilterItems (rank_posts_by_intent now parseTs
        (dedupe_by_url posts) queries 60)) parsed).any (fun j => j.keep)) = true)
    (hsearch : search now parseTs queries posts (.ok parsed) = .ok result)
    (hmem : p ∈ result) :
    (keptUrls (judgedOf (mkFilterItems (rank_posts_by_intent now parseTs
        (dedupe_by_url posts) queries 60)) parsed)).contains p.url = true := by
  have hkeep_ne : keptUrls (judgedOf (mkFilterItems (rank_posts_by_intent now parseTs
      (dedupe_by_url posts) queries 60)) parsed) ≠ [] := by
    obtain ⟨j, hjmem, hjkeep⟩ := List.any_eq_true.mp hany
    intro h
    have hj : j.url ∈ keptUrls (judgedOf (mkFilterItems (rank_posts_by_intent now parseTs
        (dedupe_by_url posts) queries 60)) parsed) :=
      List.mem_map_of_mem _ (List.mem_filter.mpr ⟨hjmem, hjkeep⟩)
    rw [h] at hj
    exact List.not_mem_nil _ hj
  by_cases hemp : (dedupe_by_url posts).isEmpty
  · rw [show search now parseTs queries posts (.ok parsed) = .ok [] by
      simp only [search]; rw [if_pos hemp]] at hsearch
    injection hsearch with h
    rw [← h] at hmem
    exact absurd hmem (List.not_mem_nil p)
  · simp only [search, llmFilterPosts] at hsearch
    rw [if_neg hemp, if_neg (by simpa using hkeep_ne)] at hsearch
    injection hsearch with h
    rw [← h] at hmem
    exact (List.mem_filter.mp (List.mem_of_mem_take hmem)).2

/-- Witness for `C10_unjudged_excluded`: one candidate with a matching
keep=true judgment; the candidate is in the result and its url is in the
kept set. -/
theorem C10_witness :
    (keptUrls (judgedOf (mkFilterItems (rank_posts_by_intent 0 (fun _ => none)
        (dedupe_by_url [⟨"reddit", "t", "http://c.co/z", "s", none⟩]) ["q"] 60))
        (some (.arr [.obj [("url", .str "http://c.co/z"),
          ("keep", .bool true), ("reason", .str "r")]])))).contains
      (Post.url ⟨"reddit", "t", "http://c.co/z", "s", none⟩) = true := by
  have hded : dedupe_by_url [(⟨"reddit", "t", "http://c.co/z", "s", none⟩ : Post)]
      = [⟨"reddit", "t", "http://c.co/z", "s", none⟩] := by
    simp [dedupe_by_url, dedupeAux]
  have hrank := rank_singleton 0 (fun _ => none)
      (⟨"reddit", "t", "http://c.co/z", "s", none⟩ : Post) ["q"]
  exact C10_unjudged_excluded 0 (fun _ => none) ["q"]
    [⟨"reddit", "t", "http://c.co/z", "s", none⟩]
    (some (.arr [.obj [("url", .str "http://c.co/z"),
      ("keep", .bool true), ("reason", .str "r")]]))
    ⟨"reddit", "t", "http://c.co/z", "s", none⟩
    [⟨"reddit", "t", "http://c.co/z", "s", none⟩]
    (by rw [hded, hrank]; decide)
    (by simp only [search, hded, hrank, llmFilterPosts, judgedOf]; rfl)
    (by simp)
